import Mathlib

/-!
Verification development for the ABCNN repository (setup.py, utils.py,
src/vis_utils.py): a shallow embedding of the configuration-driven model
construction, dataset indexing, embedding-matrix construction, weight
initialization and the visualization block-reconstruction helper, together
with theorems settling the specification claims.

Python dicts are embedded as insertion-ordered association lists
(`List (String × α)`); assignment updates an existing key in place or
appends a fresh one, matching CPython semantics. Randomness (numpy
uniform draws, Xavier-normal init) is threaded as explicit parameters.
-/

deriving instance DecidableEq for Except

/-- Python `k in d` for a dict embedded as an ordered association list. -/
def dictContains {α : Type} (d : List (String × α)) (k : String) : Bool :=
  d.any (fun p => p.1 == k)

/-- Python `d[k]` (as an `Option`, `none` when the key is absent). -/
def dictGet {α : Type} (d : List (String × α)) (k : String) : Option α :=
  (d.find? (fun p => p.1 == k)).map (fun p => p.2)

/-- Python `d[k] = v`: update in place when the key exists (keeping its
position in insertion order), otherwise append the new binding. -/
def dictSet {α : Type} (d : List (String × α)) (k : String) (v : α) :
    List (String × α) :=
  if dictContains d k then d.map (fun p => if p.1 == k then (k, v) else p)
  else d ++ [(k, v)]

/-- One block descriptor of the configuration schema
(`setup.py`, `setup_block`, lines 397-402). -/
structure BlockConfig where
  type : String
  input_size : Nat
  output_size : Nat
  width : Nat
  dropout_rate : Rat
  match_score : String
  share_weights : Bool
deriving DecidableEq

/-- Constructor arguments of `Convolution(input_size, output_size, width, d)`
as passed at the call sites in `setup_block` (the module itself lives in
`model/convolution/conv.py`); the fourth positional argument is the
input-depth multiplier. -/
structure Convolution where
  input_size : Nat
  output_size : Nat
  width : Nat
  in_depth : Nat
deriving DecidableEq

/-- Constructor arguments of
`ABCNN1Attention(input_size, max_length, share_weights, match_score)`. -/
structure ABCNN1Attention where
  input_size : Nat
  max_length : Nat
  share_weights : Bool
  match_score : String
deriving DecidableEq

/-- Constructor arguments of `ABCNN2Attention(max_length, width, match_score)`. -/
structure ABCNN2Attention where
  max_length : Nat
  width : Nat
  match_score : String
deriving DecidableEq

/-- Constructor argument of `WidthAP(width)`. -/
structure WidthAP where
  width : Nat
deriving DecidableEq

/-- The four block variants built by `setup_block`, recording the
sub-modules each variant is wired from (`setup.py` lines 404-424). -/
inductive Block where
  | bcnn (conv : Convolution) (pool : WidthAP) (dropout_rate : Rat)
  | abcnn1 (attn : ABCNN1Attention) (conv : Convolution) (pool : WidthAP)
      (dropout_rate : Rat)
  | abcnn2 (conv : Convolution) (attn : ABCNN2Attention) (dropout_rate : Rat)
  | abcnn3 (attn1 : ABCNN1Attention) (conv : Convolution)
      (attn2 : ABCNN2Attention) (dropout_rate : Rat)
deriving DecidableEq

/-- The depth multiplier of the convolution inside a block (the fourth
argument passed to `Convolution` at the block's construction site). -/
def Block.convDepth : Block → Nat
  | .bcnn conv _ _ => conv.in_depth
  | .abcnn1 _ conv _ _ => conv.in_depth
  | .abcnn2 conv _ _ => conv.in_depth
  | .abcnn3 _ conv _ _ => conv.in_depth

/-- `setup_block` (`setup.py` lines 384-429): dispatch on the `type`
string, raising for any unrecognized value; returns the block together
with its `output_size`. -/
def setup_block (max_length : Nat) (c : BlockConfig) :
    Except String (Block × Nat) :=
  if c.type == "bcnn" then
    .ok (.bcnn ⟨c.input_size, c.output_size, c.width, 1⟩ ⟨c.width⟩
          c.dropout_rate, c.output_size)
  else if c.type == "abcnn1" then
    .ok (.abcnn1 ⟨c.input_size, max_length, c.share_weights, c.match_score⟩
          ⟨c.input_size, c.output_size, c.width, 2⟩ ⟨c.width⟩
          c.dropout_rate, c.output_size)
  else if c.type == "abcnn2" then
    .ok (.abcnn2 ⟨c.input_size, c.output_size, c.width, 1⟩
          ⟨max_length, c.width, c.match_score⟩ c.dropout_rate, c.output_size)
  else if c.type == "abcnn3" then
    .ok (.abcnn3 ⟨c.input_size, max_length, c.share_weights, c.match_score⟩
          ⟨c.input_size, c.output_size, c.width, 2⟩
          ⟨max_length, c.width, c.match_score⟩ c.dropout_rate, c.output_size)
  else
    .error "Unsupported type. Must be one of bcnn, abcnn1, abcnn2, abcnn3."

/-- `CNNLayer(blocks)` as built by `setup_layer`. -/
structure CNNLayer where
  blocks : List Block
deriving DecidableEq

/-- The `for block_config in layer_config` loop of `setup_layer`: build
each block in order, propagating the first raised error. -/
def setup_blocks (max_length : Nat) :
    List BlockConfig → Except String (List (Block × Nat))
  | [] => .ok []
  | c :: rest =>
    match setup_block max_length c with
    | .error e => .error e
    | .ok b =>
      match setup_blocks max_length rest with
      | .error e => .error e
      | .ok bs => .ok (b :: bs)

/-- `setup_layer` (`setup.py` lines 360-381): build every block of the
layer, collect them into a `CNNLayer`, and return the layer together with
the sum of the blocks' output sizes. -/
def setup_layer (max_length : Nat) (layer_config : List BlockConfig) :
    Except String (CNNLayer × Nat) :=
  match setup_blocks max_length layer_config with
  | .error e => .error e
  | .ok results =>
    .ok (⟨results.map (fun r => r.1)⟩, (results.map (fun r => r.2)).sum)

/-- The model-level configuration fields read by `setup_model`. -/
structure ModelCfg where
  max_length : Nat
  layers : List (List BlockConfig)
  use_all_layer_outputs : Bool
deriving DecidableEq

/-- Constructor arguments of
`Model(embeddings, layers, use_all_layer_outputs, final_size)` as passed
by `setup_model` (the module itself lives in `model/model.py`). -/
structure Model where
  layers : List CNNLayer
  use_all_layer_outputs : Bool
  final_size : Nat
deriving DecidableEq

/-- The `for layer_config in layer_configs` loop of `setup_model`. -/
def setup_layers (max_length : Nat) :
    List (List BlockConfig) → Except String (List (CNNLayer × Nat))
  | [] => .ok []
  | lc :: rest =>
    match setup_layer max_length lc with
    | .error e => .error e
    | .ok l =>
      match setup_layers max_length rest with
      | .error e => .error e
      | .ok ls => .ok (l :: ls)

/-- `setup_model` (`setup.py` lines 83-120), size bookkeeping: the list
`layer_sizes` is seeded with `embeddings_size`, each layer appends its
pooled size, and `final_size` is `2 * sum(layer_sizes)` when
`use_all_layer_outputs` else `2 * layer_sizes[-1]`. -/
def setup_model (embeddings_size : Nat) (cfg : ModelCfg) :
    Except String Model :=
  match setup_layers cfg.max_length cfg.layers with
  | .error e => .error e
  | .ok results =>
    let layer_sizes : List Nat :=
      embeddings_size :: results.map (fun r => r.2)
    let final_size :=
      if cfg.use_all_layer_outputs then 2 * layer_sizes.sum
      else 2 * layer_sizes.getLastD 0
    .ok { layers := results.map (fun r => r.1),
          use_all_layer_outputs := cfg.use_all_layer_outputs,
          final_size := final_size }

/-- The pooled size of one layer as the claim words it: the sum of the
blocks' configured `output_size` values. -/
def layerPooledSize (layer_config : List BlockConfig) : Nat :=
  (layer_config.map (fun c => c.output_size)).sum

/-- A pretrained word-vector store: word lookup returning a vector when
the word is present (`KeyedVectors.__getitem__`, raising = `none`). -/
def WordVectors : Type := String → Option (List Rat)

/-- `setup_word_vectors` (`setup.py` lines 123-158): dispatch on the
embeddings `format` string, raising for any unrecognized value; when the
embeddings file is absent the initial `None` is returned unchanged. The
file-existence test and the store parsed from disk are threaded as
parameters (file I/O). -/
def setup_word_vectors (embeddings_format : String) (file_is_present : Bool)
    (loaded : WordVectors) : Except String (Option WordVectors) :=
  if embeddings_format == "word2vec" then
    .ok (if file_is_present then some loaded else none)
  else if embeddings_format == "fasttext" then
    .ok (if file_is_present then some loaded else none)
  else
    .error "Unsupported type. Must be one of word2vec or fasttext."

/-- The evolving word-to-index mapping of `setup_datasets`. -/
abbrev W2I := List (String × Nat)

/-- Lines 225-226 of `setup.py`: `if word not in word2index:
word2index[word] = len(word2index)`. -/
def w2i_update (w2i : W2I) (word : String) : W2I :=
  if dictContains w2i word then w2i else dictSet w2i word w2i.length

/-- The `for word in words` loop of `setup_datasets` (lines 222-229):
assign the fresh index `len(word2index)` at a word's first occurrence,
and collect every word's index in order. -/
def convert_words (w2i : W2I) : List String → W2I × List Nat
  | [] => (w2i, [])
  | word :: rest =>
    let w2i' := w2i_update w2i word
    let idx := (dictGet w2i' word).getD 0
    let r := convert_words w2i' rest
    (r.1, idx :: r.2)

/-- Truncation then right-padding of the index list with index 0
(`setup.py` lines 231-239). -/
def truncate_pad (indexes : List Nat) (max_length : Nat) : List Nat :=
  let length := if indexes.length < max_length then indexes.length
                else max_length
  let indexes := indexes.take length
  if length < max_length then
    indexes ++ List.replicate (max_length - length) 0
  else indexes

/-- Truncation then right-padding of the parsed word list with the
literal token `<PAD>` (`setup.py` lines 231-240). -/
def truncate_pad_words (words : List String) (max_length : Nat) :
    List String :=
  let length := if words.length < max_length then words.length
                else max_length
  let words := words.take length
  if length < max_length then
    words ++ List.replicate (max_length - length) "<PAD>"
  else words

/-- One DataFrame row: the two question columns and the label column
read by `setup_datasets`. -/
structure ExampleRow where
  question1 : String
  question2 : String
  is_duplicate : Int
deriving DecidableEq

/-- Processing of one question column (`setup.py` lines 213-244): the
external text cleaning (`text_to_word_list` followed by
`remove_stop_words`, out-of-scope glue) is threaded as the `tokenize`
parameter; then words are converted to indices, truncated and padded. -/
def process_question (tokenize : String → List String) (max_length : Nat)
    (w2i : W2I) (question : String) : W2I × List Nat × List String :=
  let words := tokenize question
  let r := convert_words w2i words
  (r.1, truncate_pad r.2 max_length, truncate_pad_words words max_length)

/-- Processing of one example: the two question columns in order,
threading the word-to-index mapping. -/
def process_example (tokenize : String → List String) (max_length : Nat)
    (w2i : W2I) (ex : ExampleRow) :
    W2I × (List Nat × List Nat) × (List String × List String) :=
  let r1 := process_question tokenize max_length w2i ex.question1
  let r2 := process_question tokenize max_length r1.1 ex.question2
  (r2.1, (r1.2.1, r2.2.1), (r1.2.2, r2.2.2))

/-- Accumulated result of the per-example loop of `setup_datasets`. -/
structure ProcessedRows where
  w2i : W2I
  indexed : List (List Nat × List Nat)
  labels : List Int
  parsed : List (List String × List String)
deriving DecidableEq

/-- The `for index, example in dataset.iterrows()` loop
(`setup.py` lines 208-249). -/
def process_rows (tokenize : String → List String) (max_length : Nat)
    (w2i : W2I) : List ExampleRow → ProcessedRows
  | [] => ⟨w2i, [], [], []⟩
  | ex :: rest =>
    let r := process_example tokenize max_length w2i ex
    let rs := process_rows tokenize max_length r.1 rest
    ⟨rs.w2i, r.2.1 :: rs.indexed, ex.is_duplicate :: rs.labels,
     r.2.2 :: rs.parsed⟩

/-- `TensorDataset(indexed_examples, labels)` (`setup.py` line 254). -/
structure TensorDataset where
  examples : List (List Nat × List Nat)
  labels : List Int
deriving DecidableEq

/-- Processing of one whole dataset (`setup.py` lines 201-256). -/
def process_dataset (tokenize : String → List String) (max_length : Nat)
    (w2i : W2I) (rows : List ExampleRow) :
    W2I × TensorDataset × List (List String × List String) :=
  let r := process_rows tokenize max_length w2i rows
  (r.w2i, ⟨r.indexed, r.labels⟩, r.parsed)

/-- The `for name, dataset in datasets.items()` loop of `setup_datasets`:
each entry's DataFrame value is overwritten in place
(`datasets[name] = dataset`, line 255) with the TensorDataset, keeping
the key order; the word-to-index mapping is threaded across datasets. -/
def setup_datasets_loop (tokenize : String → List String) (max_length : Nat)
    (w2i : W2I) :
    List (String × List ExampleRow) →
      List (String × TensorDataset) ×
        List (String × List (List String × List String)) × W2I
  | [] => ([], [], w2i)
  | (name, rows) :: rest =>
    let r := process_dataset tokenize max_length w2i rows
    let rs := setup_datasets_loop tokenize max_length r.1 rest
    ((name, r.2.1) :: rs.1, (name, r.2.2) :: rs.2.1, rs.2.2)

/-- `setup_datasets` (`setup.py` lines 161-258): the word-to-index
mapping starts as the single binding `<PAD> -> 0`; returns
`(datasets, texts, word2index)`. `embeddings_size` is accepted but unused,
as in the source. -/
def setup_datasets (tokenize : String → List String)
    (datasets : List (String × List ExampleRow))
    (embeddings_size max_length : Nat) :
    List (String × TensorDataset) ×
      List (String × List (List String × List String)) × W2I :=
  let _ := embeddings_size
  setup_datasets_loop tokenize max_length [("<PAD>", 0)] datasets

/-- `setup_embedding_matrix` (`setup.py` lines 261-289): a
`(len(word2index) + 1) × embeddings_size` uniform random matrix (the
numpy draw threaded as `rand`, row `i` of the draw being `rand i`), row 0
zeroed, then — when a store is present — every word of `word2index` found
in the store has its row overwritten by the pretrained vector; failing
lookups are passed over. -/
def setup_embedding_matrix (word_vectors : Option WordVectors)
    (word2index : W2I) (embeddings_size : Nat) (rand : Nat → List Rat) :
    List (List Rat) :=
  let embeddings := (List.range (word2index.length + 1)).map rand
  let embeddings := embeddings.set 0 (List.replicate embeddings_size 0)
  match word_vectors with
  | none => embeddings
  | some wv =>
    word2index.foldl
      (fun emb p =>
        match wv p.1 with
        | some v => emb.set p.2 v
        | none => emb)
      embeddings

/-- Python substring test `pat in s` on character lists. -/
def charsContains (pat : List Char) : List Char → Bool
  | [] => pat.isEmpty
  | c :: rest => pat.isPrefixOf (c :: rest) || charsContains pat rest

/-- Python `pat in s` for strings. -/
def strContains (s pat : String) : Bool :=
  charsContains pat.data s.data

/-- Python `s.replace(pat, "")` on character lists: remove the leftmost
occurrence and continue after it, scanning left to right. The scan is
driven by a structural fuel argument; one unit of fuel is spent per step
and every step consumes at least one character, so any fuel of at least
the list's length gives the fuel-free semantics. -/
def removeOccurrencesAux (pat : List Char) : Nat → List Char → List Char
  | _, [] => []
  | 0, s => s
  | fuel + 1, c :: rest =>
    if !pat.isEmpty && pat.isPrefixOf (c :: rest) then
      removeOccurrencesAux pat fuel ((c :: rest).drop pat.length)
    else
      c :: removeOccurrencesAux pat fuel rest

/-- Python `s.replace(pat, "")` on character lists. -/
def removeOccurrences (pat s : List Char) : List Char :=
  removeOccurrencesAux pat s.length s

/-- Python `s.replace(pat, "")` for strings. -/
def strRemove (s pat : String) : String :=
  ⟨removeOccurrences pat.data s.data⟩

/-- A PyTorch state dict: parameter names to (symbolic) tensor values, in
insertion order. -/
abbrev StateDict := List (String × Int)

/-- The weight-copy loop of `make_block` (`src/vis_utils.py` lines 28-32):
for every saved entry whose name contains the prefix, when the stripped
name is a key of the block's state dict, the saved tensor is stored under
the original (unstripped) name. -/
def make_block_dict (model_dict : StateDict) (block_pre : String)
    (block_dict : StateDict) : StateDict :=
  model_dict.foldl
    (fun bd nw =>
      if strContains nw.1 block_pre then
        (if dictContains bd (strRemove nw.1 block_pre) then
          dictSet bd nw.1 nw.2
        else bd)
      else bd)
    block_dict

/-- PyTorch `Module.load_state_dict` with the default `strict=True`:
raise when the provided dict has unexpected or missing keys relative to
the module's own state dict, otherwise copy the provided value into every
parameter. -/
def load_state_dict (own given : StateDict) : Except String StateDict :=
  if given.all (fun p => dictContains own p.1) &&
      own.all (fun p => dictContains given p.1) then
    .ok (own.map (fun p => (p.1, (dictGet given p.1).getD p.2)))
  else
    .error "Error in loading state_dict: unexpected or missing keys."

/-- `make_block` (`src/vis_utils.py` lines 7-34): construct a fresh block
via `setup_block` (its freshly initialized state dict threaded as
`fresh_dict`), copy matching saved weights per `make_block_dict`, then
load the resulting dict strictly into the block. -/
def make_block (model_dict : StateDict) (block_pre : String)
    (max_length : Nat) (block_config : BlockConfig)
    (fresh_dict : StateDict) : Except String (Block × Nat × StateDict) :=
  match setup_block max_length block_config with
  | .error e => .error e
  | .ok bo =>
    let block_dict := make_block_dict model_dict block_pre fresh_dict
    match load_state_dict fresh_dict block_dict with
    | .error e => .error e
    | .ok loaded => .ok (bo.1, bo.2, loaded)

/-- The parameter tensors `weights_init` touches, with symbolic values;
a module lacking one of them carries `none` in that slot. -/
structure Params where
  weight : Option Int
  bias : Option Int
  W1 : Option Int
  W2 : Option Int
deriving DecidableEq

/-- A PyTorch module tree: runtime class name, own parameters, children. -/
inductive NNModule where
  | node (classname : String) (params : Params) (children : List NNModule)

/-- `weights_init` (`setup.py` lines 432-453): dispatch on substring
matches of the runtime class name (`classname.find(...) != -1`); the
Xavier-normal draw is threaded as the `xavier` parameter, and
`nn.init.constant_(m.bias, 0)` sets the bias tensor to zero. -/
def weights_init (xavier : Int → Int) (classname : String) (p : Params) :
    Params :=
  if strContains classname "Conv2d" then
    { p with weight := p.weight.map xavier, bias := p.bias.map (fun _ => 0) }
  else if strContains classname "Linear" then
    { p with weight := p.weight.map xavier, bias := p.bias.map (fun _ => 0) }
  else if strContains classname "ABCNN1Attention" then
    { p with W1 := p.W1.map xavier, W2 := p.W2.map xavier }
  else p

mutual

/-- PyTorch `Module.apply(fn)`: `fn` is applied to every child subtree
recursively and then to the module itself, so every submodule is visited
exactly once. -/
def NNModule.applyFn (f : String → Params → Params) : NNModule → NNModule
  | .node c p cs => .node c (f c p) (applyFnList f cs)

/-- `Module.apply` over the list of children. -/
def applyFnList (f : String → Params → Params) :
    List NNModule → List NNModule
  | [] => []
  | m :: ms => NNModule.applyFn f m :: applyFnList f ms

end

/-- The submodule at a path of child indices. -/
def NNModule.sub : List Nat → NNModule → Option NNModule
  | [], m => some m
  | i :: path, .node _ _ cs =>
    match cs.get? i with
    | some c => NNModule.sub path c
    | none => none

/-- `setup.py` lines 117-119: immediately after `Model(...)` is
constructed, `model.apply(weights_init)` runs over its module tree. -/
def setup_model_init (xavier : Int → Int) (model_modules : NNModule) :
    NNModule :=
  model_modules.applyFn (weights_init xavier)

/-- Invariant of the evolving word-to-index mapping of `setup_datasets`:
the stored values are exactly the positions 0, 1, 2, ... in insertion
order, and the first binding is the padding token `<PAD>` at index 0. -/
def W2IWf (w2i : W2I) : Prop :=
  w2i.head? = some ("<PAD>", 0) ∧ w2i.map Prod.snd = List.range w2i.length

/-- A concrete valid block configuration used in concrete instances. -/
def bcnnCfg : BlockConfig := ⟨"bcnn", 3, 5, 2, 0, "cosine", true⟩

/-! ## Helper lemmas -/

theorem setup_block_size (max_length : Nat) (c : BlockConfig)
    (r : Block × Nat) (h : setup_block max_length c = .ok r) :
    r.2 = c.output_size := by
  unfold setup_block at h
  split_ifs at h
  all_goals
    first
      | (simp only [Except.ok.injEq] at h; subst h; rfl)
      | exact absurd h (by simp)

theorem setup_blocks_sizes (max_length : Nat) (lc : List BlockConfig)
    (rs : List (Block × Nat)) (h : setup_blocks max_length lc = .ok rs) :
    rs.map (fun r => r.2) = lc.map (fun c => c.output_size) := by
  induction lc generalizing rs with
  | nil =>
    simp only [setup_blocks, Except.ok.injEq] at h
    subst h; rfl
  | cons c rest ih =>
    unfold setup_blocks at h
    cases hb : setup_block max_length c with
    | error e => rw [hb] at h; exact absurd h (by simp)
    | ok b =>
      rw [hb] at h
      cases hr : setup_blocks max_length rest with
      | error e => rw [hr] at h; exact absurd h (by simp)
      | ok bs =>
        rw [hr] at h
        simp only [Except.ok.injEq] at h
        subst h
        simp [ih bs hr, setup_block_size max_length c b hb]

theorem setup_layer_size (max_length : Nat) (lc : List BlockConfig)
    (r : CNNLayer × Nat) (h : setup_layer max_length lc = .ok r) :
    r.2 = layerPooledSize lc := by
  unfold setup_layer at h
  cases hb : setup_blocks max_length lc with
  | error e => rw [hb] at h; exact absurd h (by simp)
  | ok results =>
    rw [hb] at h
    simp only [Except.ok.injEq] at h
    subst h
    simp only [layerPooledSize, ← setup_blocks_sizes max_length lc results hb]

theorem setup_layers_sizes (max_length : Nat)
    (lcs : List (List BlockConfig)) (rs : List (CNNLayer × Nat))
    (h : setup_layers max_length lcs = .ok rs) :
    rs.map (fun r => r.2) = lcs.map layerPooledSize := by
  induction lcs generalizing rs with
  | nil =>
    simp only [setup_layers, Except.ok.injEq] at h
    subst h; rfl
  | cons lc rest ih =>
    unfold setup_layers at h
    cases hl : setup_layer max_length lc with
    | error e => rw [hl] at h; exact absurd h (by simp)
    | ok l =>
      rw [hl] at h
      cases hr : setup_layers max_length rest with
      | error e => rw [hr] at h; exact absurd h (by simp)
      | ok ls =>
        rw [hr] at h
        simp only [Except.ok.injEq] at h
        subst h
        simp [ih ls hr, setup_layer_size max_length lc l hl]

/-! ## Claim C1 -/

/-- C1, counterexample: with `embeddings_size = 3`, a single layer of
pooled size 5 and `use_all_layer_outputs = true`, `setup_model` computes
`final_size = 16` (the seed `embeddings_size` entry of `layer_sizes` is
included in the sum), while the claim's `2 * Σ(layer pooled sizes)`
is 10. -/
theorem C1_final_size_cex :
    (setup_model 3 ⟨4, [[bcnnCfg]], true⟩).map Model.final_size =
      Except.ok 16 ∧
    2 * layerPooledSize [bcnnCfg] = 10 ∧ (16 : Nat) ≠ 10 := by
  decide

/-- C1 (amended): the classification-head size computed by `setup_model`
equals `2 * (embeddings_size + Σ(layer pooled sizes))` when
`use_all_layer_outputs` is true — the seed `embeddings_size` entry of
`layer_sizes` is part of the sum — and `2 *` the last layer's pooled size
(`embeddings_size` when there are no layers) when it is false. -/
theorem C1_final_size (embeddings_size : Nat) (cfg : ModelCfg) (m : Model)
    (h : setup_model embeddings_size cfg = .ok m) :
    m.final_size =
      if cfg.use_all_layer_outputs then
        2 * (embeddings_size + (cfg.layers.map layerPooledSize).sum)
      else
        2 * (cfg.layers.map layerPooledSize).getLastD embeddings_size := by
  unfold setup_model at h
  cases hl : setup_layers cfg.max_length cfg.layers with
  | error e => rw [hl] at h; exact absurd h (by simp)
  | ok results =>
    rw [hl] at h
    simp only [Except.ok.injEq] at h
    have hfs : m.final_size =
        if cfg.use_all_layer_outputs then
          2 * (embeddings_size :: results.map (fun r => r.2)).sum
        else
          2 * (embeddings_size :: results.map (fun r => r.2)).getLastD 0 := by
      rw [← h]
    rw [hfs, setup_layers_sizes cfg.max_length cfg.layers results hl]
    by_cases hu : cfg.use_all_layer_outputs = true
    · rw [if_pos hu, if_pos hu, List.sum_cons]
    · rw [if_neg hu, if_neg hu, List.getLastD_cons]

/-- C1, witness: the amended statement evaluated on the concrete
configuration of the counterexample. -/
theorem C1_final_size_witness :
    (Model.mk [CNNLayer.mk [Block.bcnn ⟨3, 5, 2, 1⟩ ⟨2⟩ 0]] true 16).final_size =
      if (ModelCfg.mk 4 [[bcnnCfg]] true).use_all_layer_outputs then
        2 * (3 + ((ModelCfg.mk 4 [[bcnnCfg]] true).layers.map
          layerPooledSize).sum)
      else
        2 * ((ModelCfg.mk 4 [[bcnnCfg]] true).layers.map
          layerPooledSize).getLastD 3 :=
  C1_final_size 3 (ModelCfg.mk 4 [[bcnnCfg]] true) _ (by decide)

/-! ## Claim C5 -/

/-- C5: setup raises exactly on invalid configurations — `setup_block`
succeeds iff the block `type` is one of `bcnn`, `abcnn1`, `abcnn2`,
`abcnn3`, and `setup_word_vectors` succeeds iff the embeddings `format`
is one of `word2vec`, `fasttext`; in all other cases an exception is
raised at setup time, never a silent default. -/
theorem C5_config_errors (max_length : Nat) (c : BlockConfig)
    (fmt : String) (file_is_present : Bool) (loaded : WordVectors) :
    ((setup_block max_length c).isOk = true ↔
      c.type ∈ ["bcnn", "abcnn1", "abcnn2", "abcnn3"]) ∧
    ((setup_word_vectors fmt file_is_present loaded).isOk = true ↔
      fmt ∈ ["word2vec", "fasttext"]) := by
  constructor
  · unfold setup_block
    split_ifs with h1 h2 h3 h4 <;>
      simp_all [Except.isOk, Except.toBool, beq_iff_eq]
  · unfold setup_word_vectors
    split_ifs with h1 h2 <;>
      simp_all [Except.isOk, Except.toBool, beq_iff_eq]

/-! ## Claim C6 -/

/-- C6: `setup_block` passes input-depth multiplier 2 to the
`Convolution` exactly for the block types that place ABCNN-1 attention
before the convolution (`abcnn1`, `abcnn3`), and multiplier 1 for
`bcnn` and `abcnn2`. -/
theorem C6_conv_input_depth (max_length : Nat) (c : BlockConfig)
    (b : Block) (s : Nat) (h : setup_block max_length c = .ok (b, s)) :
    (b.convDepth = 2 ↔ (c.type = "abcnn1" ∨ c.type = "abcnn3")) ∧
    (b.convDepth = 1 ↔ (c.type = "bcnn" ∨ c.type = "abcnn2")) := by
  unfold setup_block at h
  by_cases h1 : (c.type == "bcnn") = true
  · rw [if_pos h1] at h
    simp only [Except.ok.injEq, Prod.mk.injEq] at h
    obtain ⟨hb, -⟩ := h
    subst hb
    rw [beq_iff_eq] at h1
    rw [h1]
    simp only [Block.convDepth]
    decide
  · rw [if_neg h1] at h
    by_cases h2 : (c.type == "abcnn1") = true
    · rw [if_pos h2] at h
      simp only [Except.ok.injEq, Prod.mk.injEq] at h
      obtain ⟨hb, -⟩ := h
      subst hb
      rw [beq_iff_eq] at h2
      rw [h2]
      simp only [Block.convDepth]
      decide
    · rw [if_neg h2] at h
      by_cases h3 : (c.type == "abcnn2") = true
      · rw [if_pos h3] at h
        simp only [Except.ok.injEq, Prod.mk.injEq] at h
        obtain ⟨hb, -⟩ := h
        subst hb
        rw [beq_iff_eq] at h3
        rw [h3]
        simp only [Block.convDepth]
        decide
      · rw [if_neg h3] at h
        by_cases h4 : (c.type == "abcnn3") = true
        · rw [if_pos h4] at h
          simp only [Except.ok.injEq, Prod.mk.injEq] at h
          obtain ⟨hb, -⟩ := h
          subst hb
          rw [beq_iff_eq] at h4
          rw [h4]
          simp only [Block.convDepth]
          decide
        · rw [if_neg h4] at h
          exact absurd h (by simp)

/-- C6, witness: the property evaluated on a concrete `bcnn` block. -/
theorem C6_conv_input_depth_witness :
    ((Block.bcnn ⟨3, 5, 2, 1⟩ ⟨2⟩ 0).convDepth = 2 ↔
      (bcnnCfg.type = "abcnn1" ∨ bcnnCfg.type = "abcnn3")) ∧
    ((Block.bcnn ⟨3, 5, 2, 1⟩ ⟨2⟩ 0).convDepth = 1 ↔
      (bcnnCfg.type = "bcnn" ∨ bcnnCfg.type = "abcnn2")) :=
  C6_conv_input_depth 4 bcnnCfg _ 5 (by decide)

/-! ## Claim C2 -/

/-- C2, evaluation at the failing input: with saved weights
`{"b0.conv.weight": 7}`, prefix `"b0."` and a fresh block whose state
dict is `{"conv.weight": 3}`, the copy loop stores the saved tensor under
the unstripped name `b0.conv.weight` (line 32 of `vis_utils.py` assigns
to `block_dict[name]` instead of `block_dict[block_name]`), leaving the
block's own `conv.weight` at its fresh value 3 ≠ 7, and the strict
`load_state_dict` then raises on the unexpected key, so `make_block`
never returns a block carrying the saved weights. -/
theorem C2_make_block_bug :
    make_block_dict [("b0.conv.weight", 7)] "b0." [("conv.weight", 3)] =
      [("conv.weight", 3), ("b0.conv.weight", 7)] ∧
    dictGet (make_block_dict [("b0.conv.weight", 7)] "b0."
      [("conv.weight", 3)]) "conv.weight" = some 3 ∧
    make_block [("b0.conv.weight", 7)] "b0." 4 bcnnCfg [("conv.weight", 3)] =
      .error "Error in loading state_dict: unexpected or missing keys." ∧
    (3 : Int) ≠ 7 := by
  exact ⟨by decide, by decide, by decide, by decide⟩

/-! ## Claim C3 -/

theorem truncate_pad_length (indexes : List Nat) (max_length : Nat) :
    (truncate_pad indexes max_length).length = max_length := by
  simp only [truncate_pad]
  split_ifs with h1 h2 h3 <;>
    simp [List.length_take, Nat.min_def] <;> omega

theorem truncate_pad_short (indexes : List Nat) (max_length : Nat)
    (h : indexes.length < max_length) :
    truncate_pad indexes max_length =
      indexes ++ List.replicate (max_length - indexes.length) 0 := by
  simp only [truncate_pad]
  rw [if_pos h, if_pos h, List.take_length]

theorem truncate_pad_long (indexes : List Nat) (max_length : Nat)
    (h : ¬ indexes.length < max_length) :
    truncate_pad indexes max_length = indexes.take max_length := by
  simp only [truncate_pad]
  rw [if_neg h, if_neg (lt_irrefl max_length)]

theorem process_rows_lengths (tokenize : String → List String)
    (max_length : Nat) (w2i : W2I) (rows : List ExampleRow) :
    ∀ ex ∈ (process_rows tokenize max_length w2i rows).indexed,
      ex.1.length = max_length ∧ ex.2.length = max_length := by
  induction rows generalizing w2i with
  | nil => intro ex hex; simp [process_rows] at hex
  | cons r rest ih =>
    intro ex hex
    simp only [process_rows] at hex
    rcases List.mem_cons.mp hex with h | h
    · subst h
      constructor <;>
        simp [process_example, process_question, truncate_pad_length]
    · exact ih _ ex h

theorem setup_datasets_loop_lengths (tokenize : String → List String)
    (max_length : Nat) (w2i : W2I)
    (datasets : List (String × List ExampleRow)) :
    ∀ p ∈ (setup_datasets_loop tokenize max_length w2i datasets).1,
      ∀ ex ∈ p.2.examples,
        ex.1.length = max_length ∧ ex.2.length = max_length := by
  induction datasets generalizing w2i with
  | nil => intro p hp; simp [setup_datasets_loop] at hp
  | cons d rest ih =>
    intro p hp ex hex
    obtain ⟨name, rows⟩ := d
    simp only [setup_datasets_loop] at hp
    rcases List.mem_cons.mp hp with h | h
    · subst h
      simp only [process_dataset] at hex
      exact process_rows_lengths tokenize max_length w2i rows ex hex
    · exact ih _ p h ex hex

/-- C3: the token index sequence built for every question has length
exactly `max_length` — padded on the right with index 0 when the raw
index list is shorter, truncated on the right when it is longer — and
consequently every example tensor stored by `setup_datasets` holds two
index sequences of length exactly `max_length`. -/
theorem C3_index_sequence_length (tokenize : String → List String)
    (datasets : List (String × List ExampleRow))
    (embeddings_size max_length : Nat) (indexes : List Nat) :
    (truncate_pad indexes max_length).length = max_length ∧
    (indexes.length < max_length →
      truncate_pad indexes max_length =
        indexes ++ List.replicate (max_length - indexes.length) 0) ∧
    (max_length ≤ indexes.length →
      truncate_pad indexes max_length = indexes.take max_length) ∧
    (∀ p ∈ (setup_datasets tokenize datasets embeddings_size max_length).1,
      ∀ ex ∈ p.2.examples,
        ex.1.length = max_length ∧ ex.2.length = max_length) := by
  refine ⟨truncate_pad_length indexes max_length,
    fun h => truncate_pad_short indexes max_length h,
    fun h => truncate_pad_long indexes max_length (not_lt.mpr h),
    ?_⟩
  exact setup_datasets_loop_lengths tokenize max_length [("<PAD>", 0)]
    datasets

/-- C3, witness: the statement evaluated on a concrete dataset with a
short (padded) and a long (truncated) question. -/
theorem C3_index_sequence_length_witness :
    (truncate_pad [5] 2).length = 2 ∧
    (([5] : List Nat).length < 2 →
      truncate_pad [5] 2 = [5] ++ List.replicate (2 - ([5] : List Nat).length) 0) ∧
    (2 ≤ ([5] : List Nat).length →
      truncate_pad [5] 2 = ([5] : List Nat).take 2) ∧
    (∀ p ∈ (setup_datasets (fun s => [s, "w", "v"])
        [("train", [⟨"a", "b", 1⟩])] 3 2).1,
      ∀ ex ∈ p.2.examples, ex.1.length = 2 ∧ ex.2.length = 2) :=
  C3_index_sequence_length (fun s => [s, "w", "v"])
    [("train", [⟨"a", "b", 1⟩])] 3 2 [5]

/-! ## Word-to-index invariant lemmas (claims C8, C10) -/

theorem W2IWf_init : W2IWf [("<PAD>", 0)] := by
  constructor <;> rfl

theorem W2IWf.length_pos (w2i : W2I) (h : W2IWf w2i) : 0 < w2i.length := by
  obtain ⟨hh, -⟩ := h
  cases w2i with
  | nil => simp at hh
  | cons a l => simp

theorem W2IWf.values_lt (w2i : W2I) (h : W2IWf w2i) :
    ∀ p ∈ w2i, p.2 < w2i.length := by
  intro p hp
  have hm : p.2 ∈ w2i.map Prod.snd := List.mem_map_of_mem Prod.snd hp
  rw [h.2] at hm
  exact List.mem_range.mp hm

theorem dictSet_not_contains {α : Type} (d : List (String × α)) (k : String)
    (v : α) (h : dictContains d k = false) :
    dictSet d k v = d ++ [(k, v)] := by
  simp [dictSet, h]

theorem w2i_update_grow (w2i : W2I) (word : String) :
    ∃ t, w2i_update w2i word = w2i ++ t := by
  unfold w2i_update
  by_cases hc : dictContains w2i word = true
  · rw [if_pos hc]; exact ⟨[], by simp⟩
  · rw [if_neg hc]
    rw [dictSet_not_contains w2i word w2i.length (by simpa using hc)]
    exact ⟨[(word, w2i.length)], rfl⟩

theorem w2i_update_wf (w2i : W2I) (word : String) (h : W2IWf w2i) :
    W2IWf (w2i_update w2i word) := by
  unfold w2i_update
  by_cases hc : dictContains w2i word = true
  · rw [if_pos hc]; exact h
  · rw [if_neg hc]
    rw [dictSet_not_contains w2i word w2i.length (by simpa using hc)]
    constructor
    · rw [List.head?_append, h.1]; rfl
    · simp [h.2, List.range_succ]

theorem dictGet_getD_lt (w2i : W2I) (word : String) (h : W2IWf w2i) :
    (dictGet w2i word).getD 0 < w2i.length := by
  cases hg : dictGet w2i word with
  | none => simpa using h.length_pos
  | some v =>
    simp only [Option.getD_some]
    unfold dictGet at hg
    cases hf : w2i.find? (fun p => p.1 == word) with
    | none => rw [hf] at hg; simp at hg
    | some q =>
      rw [hf] at hg
      simp only [Option.map_some', Option.some.injEq] at hg
      rw [← hg]
      exact W2IWf.values_lt w2i h q (List.mem_of_find?_eq_some hf)

theorem convert_words_spec (words : List String) (w2i : W2I)
    (h : W2IWf w2i) :
    W2IWf (convert_words w2i words).1 ∧
    (∃ t, (convert_words w2i words).1 = w2i ++ t) ∧
    ∀ i ∈ (convert_words w2i words).2,
      i < (convert_words w2i words).1.length := by
  induction words generalizing w2i with
  | nil =>
    exact ⟨h, ⟨[], by simp [convert_words]⟩, by simp [convert_words]⟩
  | cons word rest ih =>
    have hwf' := w2i_update_wf w2i word h
    obtain ⟨hwfr, ⟨t, hgrow⟩, hidx⟩ := ih (w2i_update w2i word) hwf'
    refine ⟨by simpa [convert_words] using hwfr, ?_, ?_⟩
    · obtain ⟨t0, h0⟩ := w2i_update_grow w2i word
      refine ⟨t0 ++ t, ?_⟩
      simp only [convert_words]
      rw [hgrow, h0, List.append_assoc]
    · intro i hi
      simp only [convert_words] at hi ⊢
      rcases List.mem_cons.mp hi with hh | hh
      · subst hh
        have hlt := dictGet_getD_lt (w2i_update w2i word) word hwf'
        have hle : (w2i_update w2i word).length ≤
            (convert_words (w2i_update w2i word) rest).1.length := by
          rw [hgrow]; simp
        exact lt_of_lt_of_le hlt hle
      · exact hidx i hh

theorem truncate_pad_mem (indexes : List Nat) (max_length i : Nat)
    (hi : i ∈ truncate_pad indexes max_length) : i ∈ indexes ∨ i = 0 := by
  simp only [truncate_pad] at hi
  split_ifs at hi
  all_goals
    first
      | (rcases List.mem_append.mp hi with hh | hh
         · exact Or.inl (List.take_subset _ _ hh)
         · exact Or.inr (List.eq_of_mem_replicate hh))
      | exact Or.inl (List.take_subset _ _ hi)

theorem process_question_spec (tokenize : String → List String)
    (max_length : Nat) (w2i : W2I) (q : String) (h : W2IWf w2i) :
    W2IWf (process_question tokenize max_length w2i q).1 ∧
    (∃ t, (process_question tokenize max_length w2i q).1 = w2i ++ t) ∧
    ∀ i ∈ (process_question tokenize max_length w2i q).2.1,
      i < (process_question tokenize max_length w2i q).1.length := by
  obtain ⟨hwf, hgrow, hidx⟩ := convert_words_spec (tokenize q) w2i h
  refine ⟨by simpa [process_question] using hwf,
    by simpa [process_question] using hgrow, ?_⟩
  intro i hi
  simp only [process_question] at hi ⊢
  rcases truncate_pad_mem _ _ _ hi with hh | hh
  · exact hidx i hh
  · subst hh
    exact hwf.length_pos

theorem process_example_spec (tokenize : String → List String)
    (max_length : Nat) (w2i : W2I) (ex : ExampleRow) (h : W2IWf w2i) :
    W2IWf (process_example tokenize max_length w2i ex).1 ∧
    (∃ t, (process_example tokenize max_length w2i ex).1 = w2i ++ t) ∧
    (∀ i ∈ (process_example tokenize max_length w2i ex).2.1.1,
      i < (process_example tokenize max_length w2i ex).1.length) ∧
    (∀ i ∈ (process_example tokenize max_length w2i ex).2.1.2,
      i < (process_example tokenize max_length w2i ex).1.length) := by
  obtain ⟨h1wf, ⟨t1, h1g⟩, h1i⟩ :=
    process_question_spec tokenize max_length w2i ex.question1 h
  obtain ⟨h2wf, ⟨t2, h2g⟩, h2i⟩ :=
    process_question_spec tokenize max_length
      (process_question tokenize max_length w2i ex.question1).1
      ex.question2 h1wf
  refine ⟨by simpa [process_example] using h2wf, ?_, ?_, ?_⟩
  · refine ⟨t1 ++ t2, ?_⟩
    simp only [process_example]
    rw [h2g, h1g, List.append_assoc]
  · intro i hi
    simp only [process_example] at hi ⊢
    have hle : (process_question tokenize max_length w2i ex.question1).1.length ≤
        (process_question tokenize max_length
          (process_question tokenize max_length w2i ex.question1).1
          ex.question2).1.length := by
      rw [h2g]; simp
    exact lt_of_lt_of_le (h1i i hi) hle
  · intro i hi
    simp only [process_example] at hi ⊢
    exact h2i i hi

theorem process_rows_spec (tokenize : String → List String)
    (max_length : Nat) (w2i : W2I) (rows : List ExampleRow)
    (h : W2IWf w2i) :
    W2IWf (process_rows tokenize max_length w2i rows).w2i ∧
    (∃ t, (process_rows tokenize max_length w2i rows).w2i = w2i ++ t) ∧
    ∀ ex ∈ (process_rows tokenize max_length w2i rows).indexed,
      (∀ i ∈ ex.1,
        i < (process_rows tokenize max_length w2i rows).w2i.length) ∧
      (∀ i ∈ ex.2,
        i < (process_rows tokenize max_length w2i rows).w2i.length) := by
  induction rows generalizing w2i with
  | nil =>
    exact ⟨h, ⟨[], by simp [process_rows]⟩, by simp [process_rows]⟩
  | cons r rest ih =>
    obtain ⟨hewf, ⟨te, heg⟩, he1, he2⟩ :=
      process_example_spec tokenize max_length w2i r h
    obtain ⟨hrwf, ⟨tr, hrg⟩, hri⟩ :=
      ih (process_example tokenize max_length w2i r).1 hewf
    have hle : (process_example tokenize max_length w2i r).1.length ≤
        (process_rows tokenize max_length
          (process_example tokenize max_length w2i r).1 rest).w2i.length := by
      rw [hrg]; simp
    refine ⟨by simpa [process_rows] using hrwf, ?_, ?_⟩
    · refine ⟨te ++ tr, ?_⟩
      simp only [process_rows]
      rw [hrg, heg, List.append_assoc]
    · intro ex hex
      simp only [process_rows] at hex ⊢
      rcases List.mem_cons.mp hex with hh | hh
      · subst hh
        exact ⟨fun i hi => lt_of_lt_of_le (he1 i hi) hle,
               fun i hi => lt_of_lt_of_le (he2 i hi) hle⟩
      · exact hri ex hh

theorem setup_datasets_loop_spec (tokenize : String → List String)
    (max_length : Nat) (w2i : W2I)
    (datasets : List (String × List ExampleRow)) (h : W2IWf w2i) :
    W2IWf (setup_datasets_loop tokenize max_length w2i datasets).2.2 ∧
    (∃ t, (setup_datasets_loop tokenize max_length w2i datasets).2.2 =
      w2i ++ t) ∧
    ∀ p ∈ (setup_datasets_loop tokenize max_length w2i datasets).1,
      ∀ ex ∈ p.2.examples,
        (∀ i ∈ ex.1,
          i < (setup_datasets_loop tokenize max_length w2i datasets).2.2.length) ∧
        (∀ i ∈ ex.2,
          i < (setup_datasets_loop tokenize max_length w2i datasets).2.2.length) := by
  induction datasets generalizing w2i with
  | nil =>
    exact ⟨h, ⟨[], by simp [setup_datasets_loop]⟩,
      by simp [setup_datasets_loop]⟩
  | cons d rest ih =>
    obtain ⟨name, rows⟩ := d
    obtain ⟨hdwf, ⟨td, hdg⟩, hdi⟩ :=
      process_rows_spec tokenize max_length w2i rows h
    obtain ⟨hlwf, ⟨tl, hlg⟩, hli⟩ :=
      ih (process_rows tokenize max_length w2i rows).w2i hdwf
    have hle : (process_rows tokenize max_length w2i rows).w2i.length ≤
        (setup_datasets_loop tokenize max_length
          (process_rows tokenize max_length w2i rows).w2i rest).2.2.length := by
      rw [hlg]; simp
    refine ⟨by simpa [setup_datasets_loop, process_dataset] using hlwf, ?_, ?_⟩
    · refine ⟨td ++ tl, ?_⟩
      simp only [setup_datasets_loop, process_dataset]
      rw [hlg, hdg, List.append_assoc]
    · intro p hp ex hex
      simp only [setup_datasets_loop, process_dataset] at hp ⊢
      rcases List.mem_cons.mp hp with hh | hh
      · subst hh
        simp only at hex
        exact ⟨fun i hi => lt_of_lt_of_le ((hdi ex hex).1 i hi) hle,
               fun i hi => lt_of_lt_of_le ((hdi ex hex).2 i hi) hle⟩
      · exact hli p hh ex hex

theorem W2IWf.pad_zero (w2i : W2I) (h : W2IWf w2i) :
    dictGet w2i "<PAD>" = some 0 := by
  obtain ⟨hh, -⟩ := h
  cases w2i with
  | nil => simp at hh
  | cons a l =>
    simp only [List.head?_cons, Option.some.injEq] at hh
    subst hh
    rfl

theorem W2IWf.nonpad_ne_zero (w2i : W2I) (h : W2IWf w2i) :
    ∀ p ∈ w2i, p.1 ≠ "<PAD>" → p.2 ≠ 0 := by
  intro p hp hne hz
  obtain ⟨k, hk⟩ := List.mem_iff_get?.mp hp
  have hsnd : (w2i.map Prod.snd).get? k = some p.2 := by
    rw [List.get?_map, hk]; rfl
  rw [h.2] at hsnd
  rw [List.get?_eq_getElem?] at hsnd
  obtain ⟨hklt, hkval⟩ := List.getElem?_eq_some.mp hsnd
  rw [List.getElem_range] at hkval
  have hk0 : k = 0 := by rw [hkval]; exact hz
  subst hk0
  have hhead : w2i.get? 0 = some ("<PAD>", 0) := by
    rw [List.get?_zero, h.1]
  rw [hk] at hhead
  simp only [Option.some.injEq] at hhead
  subst hhead
  exact hne rfl

theorem dict_find?_eq_none {α : Type} (d : List (String × α)) (k : String)
    (h : dictContains d k = false) :
    d.find? (fun p => p.1 == k) = none := by
  rw [List.find?_eq_none]
  intro x hx
  simp only [dictContains, List.any_eq_false] at h
  simpa using h x hx

theorem dictSet_fresh_get {α : Type} (d : List (String × α)) (k : String)
    (v : α) (h : dictContains d k = false) :
    dictGet (dictSet d k v) k = some v := by
  rw [dictSet_not_contains d k v h]
  unfold dictGet
  rw [List.find?_append, dict_find?_eq_none d k h]
  simp

/-! ## Claim C10 -/

/-- C10: the word-to-index mapping built by `setup_datasets` maps `<PAD>`
to 0; the stored indices are exactly the consecutive positions
`0, 1, 2, ...` in insertion order (so each newly seen word receives the
next consecutive index `len(word2index)` at its first occurrence, as the
last conjunct states for the insertion step itself), and no word other
than `<PAD>` is mapped to index 0. -/
theorem C10_word2index_invariant (tokenize : String → List String)
    (datasets : List (String × List ExampleRow))
    (embeddings_size max_length : Nat) :
    dictGet (setup_datasets tokenize datasets embeddings_size
      max_length).2.2 "<PAD>" = some 0 ∧
    (setup_datasets tokenize datasets embeddings_size max_length).2.2.map
        Prod.snd =
      List.range (setup_datasets tokenize datasets embeddings_size
        max_length).2.2.length ∧
    (∀ p ∈ (setup_datasets tokenize datasets embeddings_size
        max_length).2.2, p.1 ≠ "<PAD>" → p.2 ≠ 0) ∧
    (∀ (w : W2I) (word : String), dictContains w word = false →
      dictGet (dictSet w word w.length) word = some w.length) := by
  have hwf := (setup_datasets_loop_spec tokenize max_length [("<PAD>", 0)]
    datasets W2IWf_init).1
  have hsd : (setup_datasets tokenize datasets embeddings_size
      max_length).2.2 =
      (setup_datasets_loop tokenize max_length [("<PAD>", 0)]
        datasets).2.2 := rfl
  rw [hsd]
  exact ⟨W2IWf.pad_zero _ hwf, hwf.2, W2IWf.nonpad_ne_zero _ hwf,
    fun w word hw => dictSet_fresh_get w word w.length hw⟩

/-- C10, witness: the invariant evaluated on a concrete dataset (one
example, questions tokenized to themselves), with the membership and
freshness hypotheses discharged at concrete inputs. -/
theorem C10_word2index_invariant_witness :
    dictGet (setup_datasets (fun s => [s])
      [("train", [⟨"hello", "world", 1⟩])] 3 2).2.2 "<PAD>" = some 0 ∧
    (setup_datasets (fun s => [s]) [("train", [⟨"hello", "world", 1⟩])]
        3 2).2.2.map Prod.snd =
      List.range (setup_datasets (fun s => [s])
        [("train", [⟨"hello", "world", 1⟩])] 3 2).2.2.length ∧
    (1 : Nat) ≠ 0 ∧
    dictGet (dictSet [("<PAD>", 0)] "hello" 1) "hello" = some 1 := by
  refine ⟨(C10_word2index_invariant (fun s => [s])
      [("train", [⟨"hello", "world", 1⟩])] 3 2).1,
    (C10_word2index_invariant (fun s => [s])
      [("train", [⟨"hello", "world", 1⟩])] 3 2).2.1,
    (C10_word2index_invariant (fun s => [s])
      [("train", [⟨"hello", "world", 1⟩])] 3 2).2.2.1
      ("hello", 1) (by decide) (by decide),
    (C10_word2index_invariant (fun s => [s])
      [("train", [⟨"hello", "world", 1⟩])] 3 2).2.2.2
      [("<PAD>", 0)] "hello" (by decide)⟩

/-! ## Claim C8 -/

theorem fold_set_length (f : WordVectors) (l : List (String × Nat))
    (emb : List (List Rat)) :
    (l.foldl (fun emb p =>
      match f p.1 with
      | some v => emb.set p.2 v
      | none => emb) emb).length = emb.length := by
  induction l generalizing emb with
  | nil => rfl
  | cons q rest ih =>
    rw [List.foldl_cons]
    cases hf : f q.1 <;> simp [hf, ih, List.length_set]

theorem setup_embedding_matrix_length (wv : Option WordVectors)
    (w2i : W2I) (embeddings_size : Nat) (rand : Nat → List Rat) :
    (setup_embedding_matrix wv w2i embeddings_size rand).length =
      w2i.length + 1 := by
  unfold setup_embedding_matrix
  cases wv with
  | none => simp
  | some f => simp [fold_set_length]

/-- C8: every token index stored in every example tensor produced by
`setup_datasets` is strictly below the final `len(word2index)`, and the
embedding matrix built from the same mapping has `len(word2index) + 1`
rows, so every stored index is a valid row of the matrix. -/
theorem C8_indices_in_bounds (tokenize : String → List String)
    (datasets : List (String × List ExampleRow))
    (embeddings_size max_length : Nat) (wv : Option WordVectors)
    (rand : Nat → List Rat) :
    (setup_embedding_matrix wv
        (setup_datasets tokenize datasets embeddings_size max_length).2.2
        embeddings_size rand).length =
      (setup_datasets tokenize datasets embeddings_size
        max_length).2.2.length + 1 ∧
    ∀ p ∈ (setup_datasets tokenize datasets embeddings_size max_length).1,
      ∀ ex ∈ p.2.examples,
        (∀ i ∈ ex.1, i < (setup_datasets tokenize datasets embeddings_size
          max_length).2.2.length) ∧
        (∀ i ∈ ex.2, i < (setup_datasets tokenize datasets embeddings_size
          max_length).2.2.length) := by
  refine ⟨setup_embedding_matrix_length wv _ embeddings_size rand, ?_⟩
  exact (setup_datasets_loop_spec tokenize max_length [("<PAD>", 0)]
    datasets W2IWf_init).2.2

/-- C8, witness: the bound evaluated on a concrete dataset, on the first
stored index of the first example. -/
theorem C8_indices_in_bounds_witness :
    (setup_embedding_matrix none
        (setup_datasets (fun s => [s, "x"])
          [("train", [⟨"hello", "world", 1⟩])] 3 2).2.2 3
        (fun _ => [0, 0, 0])).length =
      (setup_datasets (fun s => [s, "x"])
        [("train", [⟨"hello", "world", 1⟩])] 3 2).2.2.length + 1 ∧
    (1 : Nat) < (setup_datasets (fun s => [s, "x"])
      [("train", [⟨"hello", "world", 1⟩])] 3 2).2.2.length := by
  refine ⟨(C8_indices_in_bounds (fun s => [s, "x"])
      [("train", [⟨"hello", "world", 1⟩])] 3 2 none (fun _ => [0, 0, 0])).1,
    ?_⟩
  refine ((C8_indices_in_bounds (fun s => [s, "x"])
      [("train", [⟨"hello", "world", 1⟩])] 3 2 none
      (fun _ => [0, 0, 0])).2
      ("train", TensorDataset.mk [([1, 2], [3, 2])] [1]) (by decide)
      ([1, 2], [3, 2]) (by decide)).1 1 (by decide)

/-! ## Claim C9 -/

theorem setup_datasets_loop_keys (tokenize : String → List String)
    (max_length : Nat) (w2i : W2I)
    (datasets : List (String × List ExampleRow)) :
    (setup_datasets_loop tokenize max_length w2i datasets).1.map Prod.fst =
      datasets.map Prod.fst := by
  induction datasets generalizing w2i with
  | nil => rfl
  | cons d rest ih =>
    obtain ⟨name, rows⟩ := d
    simp only [setup_datasets_loop, List.map_cons]
    rw [ih]

theorem setup_datasets_loop_get? (tokenize : String → List String)
    (max_length : Nat) (w2i : W2I)
    (datasets : List (String × List ExampleRow)) (k : Nat) (name : String)
    (rows : List ExampleRow) (h : datasets.get? k = some (name, rows)) :
    (setup_datasets_loop tokenize max_length w2i datasets).1.get? k =
      some (name, (process_dataset tokenize max_length
        (setup_datasets_loop tokenize max_length w2i
          (datasets.take k)).2.2 rows).2.1) := by
  induction datasets generalizing w2i k with
  | nil => simp at h
  | cons d rest ih =>
    obtain ⟨n0, r0⟩ := d
    cases k with
    | zero =>
      simp only [List.get?_cons_zero, Option.some.injEq, Prod.mk.injEq] at h
      obtain ⟨rfl, rfl⟩ := h
      rfl
    | succ k =>
      simp only [List.get?_cons_succ] at h
      simp only [setup_datasets_loop, List.take_succ_cons,
        List.get?_cons_succ]
      exact ih (process_dataset tokenize max_length w2i r0).1 k h

/-- C9: `setup_datasets` overwrites the datasets dict in place — the key
sequence of the returned dict is exactly that of the input dict, and the
value at each key is the `TensorDataset` of the indexed examples and
labels of that key's DataFrame (processed with the word-to-index mapping
threaded through the preceding entries). -/
theorem C9_in_place_update (tokenize : String → List String)
    (datasets : List (String × List ExampleRow))
    (embeddings_size max_length : Nat) :
    ((setup_datasets tokenize datasets embeddings_size max_length).1.map
      Prod.fst = datasets.map Prod.fst) ∧
    ((setup_datasets tokenize datasets embeddings_size max_length).1.length =
      datasets.length) ∧
    (∀ (k : Nat) (name : String) (rows : List ExampleRow),
      datasets.get? k = some (name, rows) →
      (setup_datasets tokenize datasets embeddings_size max_length).1.get? k =
        some (name, (process_dataset tokenize max_length
          (setup_datasets tokenize (datasets.take k) embeddings_size
            max_length).2.2 rows).2.1)) := by
  refine ⟨setup_datasets_loop_keys tokenize max_length [("<PAD>", 0)]
    datasets, ?_, ?_⟩
  · have hk := setup_datasets_loop_keys tokenize max_length [("<PAD>", 0)]
      datasets
    have := congrArg List.length hk
    simpa using this
  · intro k name rows h
    exact setup_datasets_loop_get? tokenize max_length [("<PAD>", 0)]
      datasets k name rows h

/-- C9, witness: evaluated on a concrete two-dataset dict at key index 1. -/
theorem C9_in_place_update_witness :
    ((setup_datasets (fun s => [s])
        [("train", [⟨"a", "b", 1⟩]), ("dev", [⟨"c", "d", 0⟩])] 3 2).1.map
      Prod.fst =
      ([("train", [⟨"a", "b", 1⟩]), ("dev", [⟨"c", "d", 0⟩])] :
        List (String × List ExampleRow)).map Prod.fst) ∧
    (setup_datasets (fun s => [s])
        [("train", [⟨"a", "b", 1⟩]), ("dev", [⟨"c", "d", 0⟩])] 3 2).1.get? 1 =
      some ("dev", (process_dataset (fun s => [s]) 2
        (setup_datasets (fun s => [s])
          (([("train", [⟨"a", "b", 1⟩]), ("dev", [⟨"c", "d", 0⟩])] :
            List (String × List ExampleRow)).take 1) 3 2).2.2
        [⟨"c", "d", 0⟩]).2.1) :=
  ⟨(C9_in_place_update (fun s => [s])
      [("train", [⟨"a", "b", 1⟩]), ("dev", [⟨"c", "d", 0⟩])] 3 2).1,
    (C9_in_place_update (fun s => [s])
      [("train", [⟨"a", "b", 1⟩]), ("dev", [⟨"c", "d", 0⟩])] 3 2).2.2
      1 "dev" [⟨"c", "d", 0⟩] (by decide)⟩

/-! ## Claim C4 -/

theorem fold_set_get_ne (f : WordVectors) (l : List (String × Nat))
    (t : Nat) :
    ∀ emb : List (List Rat), (∀ q ∈ l, q.2 ≠ t) →
    (l.foldl (fun emb p =>
      match f p.1 with
      | some v => emb.set p.2 v
      | none => emb) emb)[t]? = emb[t]? := by
  induction l with
  | nil => intro emb _; rfl
  | cons q rest ih =>
    intro emb hne
    have hq : q.2 ≠ t := hne q (List.mem_cons_self q rest)
    have hrest : ∀ q' ∈ rest, q'.2 ≠ t := fun q' h' =>
      hne q' (List.mem_cons_of_mem q h')
    rw [List.foldl_cons]
    cases hf : f q.1 with
    | none =>
      simp only [hf]
      exact ih emb hrest
    | some v =>
      simp only [hf]
      rw [ih (emb.set q.2 v) hrest, List.getElem?_set_ne hq]

theorem fold_set_get_found (f : WordVectors) (l : List (String × Nat))
    (p : String × Nat) :
    ∀ emb : List (List Rat), p ∈ l → (l.map Prod.snd).Nodup →
    p.2 < emb.length →
    (l.foldl (fun emb p =>
      match f p.1 with
      | some v => emb.set p.2 v
      | none => emb) emb)[p.2]? =
      ((f p.1).map some).getD emb[p.2]? := by
  induction l with
  | nil => intro emb hmem _ _; simp at hmem
  | cons q rest ih =>
    intro emb hmem hnodup hlt
    have hnotin : q.2 ∉ rest.map Prod.snd := (List.nodup_cons.mp hnodup).1
    have hnodup' : (rest.map Prod.snd).Nodup := (List.nodup_cons.mp hnodup).2
    rcases List.mem_cons.mp hmem with heq | hmem'
    · subst heq
      have hne : ∀ q' ∈ rest, q'.2 ≠ p.2 := by
        intro q' h' heq'
        exact hnotin (heq' ▸ List.mem_map_of_mem Prod.snd h')
      rw [List.foldl_cons]
      cases hf : f p.1 with
      | none =>
        simp only [hf]
        rw [fold_set_get_ne f rest p.2 emb hne]
        rfl
      | some v =>
        simp only [hf]
        rw [fold_set_get_ne f rest p.2 (emb.set p.2 v) hne,
          List.getElem?_set_self hlt]
        rfl
    · have hqp : q.2 ≠ p.2 := fun heq' =>
        hnotin (heq' ▸ List.mem_map_of_mem Prod.snd hmem')
      rw [List.foldl_cons]
      cases hfq : f q.1 with
      | none =>
        simp only [hfq]
        exact ih emb hmem' hnodup' hlt
      | some v =>
        simp only [hfq]
        rw [ih (emb.set q.2 v) hmem' hnodup'
          (by rw [List.length_set]; exact hlt),
          List.getElem?_set_ne hqp]

theorem fold_set_preserve_zero (f : WordVectors) (l : List (String × Nat)) :
    ∀ emb : List (List Rat), (∀ q ∈ l, q.2 = 0 → f q.1 = none) →
    (l.foldl (fun emb p =>
      match f p.1 with
      | some v => emb.set p.2 v
      | none => emb) emb)[0]? = emb[0]? := by
  induction l with
  | nil => intro emb _; rfl
  | cons q rest ih =>
    intro emb hpad
    have hrest : ∀ q' ∈ rest, q'.2 = 0 → f q'.1 = none := fun q' h' =>
      hpad q' (List.mem_cons_of_mem q h')
    rw [List.foldl_cons]
    by_cases hq0 : q.2 = 0
    · rw [hpad q (List.mem_cons_self q rest) hq0]
      exact ih emb hrest
    · cases hfq : f q.1 with
      | none =>
        simp only [hfq]
        exact ih emb hrest
      | some v =>
        simp only [hfq]
        rw [ih (emb.set q.2 v) hrest, List.getElem?_set_ne hq0]

/-- C4, counterexample: a pretrained store containing the literal token
`<PAD>` overwrites row 0 — the loop over `word2index.items()` includes
the binding `("<PAD>", 0)` after row 0 has been zeroed, so row 0 ends up
as the store's `<PAD>` vector rather than the zero vector. -/
theorem C4_embedding_matrix_cex :
    setup_embedding_matrix
        (some (fun w => if w == "<PAD>" then some [5] else none))
        [("<PAD>", 0)] 1 (fun _ => [3]) = [[5], [3]] ∧
    ([5] : List Rat) ≠ List.replicate 1 0 := by
  exact ⟨by decide, by decide⟩

/-- C4 (amended): for a word-to-index mapping with distinct in-range
indices, the embedding matrix has `len(word2index) + 1` rows; row 0 is
the zero vector provided no word mapped to index 0 (in particular the
literal `<PAD>` binding) is found in the pretrained store — otherwise the
store's vector overwrites row 0; every other word's row is copied from
the pretrained store when the word is found there, and is left as the
pre-generated uniform random row for that index (the numpy draw,
threaded as `rand`) when the word is missing or the store is absent; no
error is raised in any case. -/
theorem C4_embedding_matrix (wv : Option WordVectors) (w2i : W2I)
    (es : Nat) (rand : Nat → List Rat)
    (hnodup : (w2i.map Prod.snd).Nodup)
    (hlt : ∀ p ∈ w2i, p.2 < w2i.length + 1)
    (hpad : ∀ f, wv = some f → ∀ p ∈ w2i, p.2 = 0 → f p.1 = none) :
    (setup_embedding_matrix wv w2i es rand).length = w2i.length + 1 ∧
    (setup_embedding_matrix wv w2i es rand)[0]? =
      some (List.replicate es 0) ∧
    (∀ f, wv = some f → ∀ p ∈ w2i, p.2 ≠ 0 →
      (setup_embedding_matrix wv w2i es rand)[p.2]? =
        some ((f p.1).getD (rand p.2))) ∧
    (wv = none → ∀ p ∈ w2i, p.2 ≠ 0 →
      (setup_embedding_matrix wv w2i es rand)[p.2]? =
        some (rand p.2)) := by
  have hbase0 : (((List.range (w2i.length + 1)).map rand).set 0
      (List.replicate es 0))[0]? = some (List.replicate es 0) := by
    apply List.getElem?_set_self
    simp
  have hbaset : ∀ t, t ≠ 0 → t < w2i.length + 1 →
      (((List.range (w2i.length + 1)).map rand).set 0
        (List.replicate es 0))[t]? = some (rand t) := by
    intro t ht hlt'
    rw [List.getElem?_set_ne (fun h => ht h.symm), List.getElem?_map,
      List.getElem?_range hlt']
    rfl
  refine ⟨setup_embedding_matrix_length wv w2i es rand, ?_, ?_, ?_⟩
  · cases wv with
    | none => exact hbase0
    | some f =>
      show (w2i.foldl _ _)[0]? = _
      rw [fold_set_preserve_zero f w2i _ (hpad f rfl)]
      exact hbase0
  · intro f hf p hp hne
    subst hf
    show (w2i.foldl _ _)[p.2]? = _
    rw [fold_set_get_found f w2i p _ hp hnodup
      (by rw [List.length_set, List.length_map, List.length_range]
          exact hlt p hp)]
    rw [hbaset p.2 hne (hlt p hp)]
    cases hfp : f p.1 <;> rfl
  · intro hf p hp hne
    subst hf
    exact hbaset p.2 hne (hlt p hp)

/-- C4, witness: the amended statement evaluated with no pretrained
store on a two-word mapping. -/
theorem C4_embedding_matrix_witness :
    (setup_embedding_matrix none [("<PAD>", 0), ("hello", 1)] 2
        (fun i => [(i : Rat), (i : Rat)])).length =
      ([("<PAD>", 0), ("hello", 1)] : W2I).length + 1 ∧
    (setup_embedding_matrix none [("<PAD>", 0), ("hello", 1)] 2
        (fun i => [(i : Rat), (i : Rat)]))[0]? =
      some (List.replicate 2 0) ∧
    (setup_embedding_matrix none [("<PAD>", 0), ("hello", 1)] 2
        (fun i => [(i : Rat), (i : Rat)]))[1]? =
      some [(1 : Rat), (1 : Rat)] := by
  have h := C4_embedding_matrix none [("<PAD>", 0), ("hello", 1)] 2
    (fun i => [(i : Rat), (i : Rat)]) (by decide) (by decide)
    (fun f hf => absurd hf (by simp))
  exact ⟨h.1, h.2.1,
    h.2.2.2 rfl ("hello", 1) (by decide) (by decide)⟩

/-! ## Claim C7 -/

theorem applyFnList_eq_map (f : String → Params → Params)
    (ms : List NNModule) :
    applyFnList f ms = ms.map (NNModule.applyFn f) := by
  induction ms with
  | nil => rfl
  | cons m rest ih => simp only [applyFnList, ih, List.map_cons]

theorem applyFn_sub (f : String → Params → Params) (path : List Nat) :
    ∀ m : NNModule, NNModule.sub path (m.applyFn f) =
      Option.map (NNModule.applyFn f) (NNModule.sub path m) := by
  induction path with
  | nil => intro m; rfl
  | cons i rest ih =>
    intro m
    obtain ⟨c, p, cs⟩ := m
    simp only [NNModule.applyFn, NNModule.sub, applyFnList_eq_map,
      List.get?_map]
    cases hc : cs.get? i with
    | none => rfl
    | some child =>
      simp only [Option.map_some']
      exact ih child

/-- C7: `setup_model` runs `model.apply(weights_init)` immediately after
construction; on the module tree this transforms the parameters of every
submodule by exactly one application of `weights_init`, which leaves the
structure intact and performs Xavier-normal weight initialization with
zero bias for every `Conv2d` and `Linear` module, and Xavier-normal
initialization of `W1` and `W2` for every `ABCNN1Attention` module. -/
theorem C7_weights_init (xavier : Int → Int) (raw : NNModule)
    (path : List Nat) (cname : String) (p : Params) (cs : List NNModule)
    (h : NNModule.sub path (setup_model_init xavier raw) =
      some (.node cname p cs)) :
    ∃ p0 cs0, NNModule.sub path raw = some (.node cname p0 cs0) ∧
      p = weights_init xavier cname p0 ∧
      (strContains cname "Conv2d" = true →
        p.weight = p0.weight.map xavier ∧
        p.bias = p0.bias.map (fun _ => 0)) ∧
      (strContains cname "Conv2d" = false →
        strContains cname "Linear" = true →
        p.weight = p0.weight.map xavier ∧
        p.bias = p0.bias.map (fun _ => 0)) ∧
      (strContains cname "Conv2d" = false →
        strContains cname "Linear" = false →
        strContains cname "ABCNN1Attention" = true →
        p.W1 = p0.W1.map xavier ∧ p.W2 = p0.W2.map xavier) := by
  rw [setup_model_init, applyFn_sub] at h
  cases hs : NNModule.sub path raw with
  | none => rw [hs] at h; simp at h
  | some m0 =>
    rw [hs] at h
    obtain ⟨c0, p0, cs0⟩ := m0
    simp only [Option.map_some', NNModule.applyFn, Option.some.injEq,
      NNModule.node.injEq] at h
    obtain ⟨rfl, hp, -⟩ := h
    subst hp
    refine ⟨p0, cs0, rfl, rfl, ?_, ?_, ?_⟩
    · intro hc
      simp [weights_init, hc]
    · intro hc1 hc2
      simp [weights_init, hc1, hc2]
    · intro hc1 hc2 hc3
      simp [weights_init, hc1, hc2, hc3]

/-- C7, witness: the statement evaluated on a concrete two-module tree
(a root `Model` with one `Conv2d` child) with xavier draw `v + 1`. -/
theorem C7_weights_init_witness :
    ∃ p0 cs0,
      NNModule.sub [0] (NNModule.node "Model" ⟨none, none, none, none⟩
          [NNModule.node "Conv2d" ⟨some 4, some 5, none, none⟩ []]) =
        some (.node "Conv2d" p0 cs0) ∧
      (⟨some 5, some 0, none, none⟩ : Params) =
        weights_init (fun v => v + 1) "Conv2d" p0 ∧
      (strContains "Conv2d" "Conv2d" = true →
        (⟨some 5, some 0, none, none⟩ : Params).weight =
          p0.weight.map (fun v => v + 1) ∧
        (⟨some 5, some 0, none, none⟩ : Params).bias =
          p0.bias.map (fun _ => 0)) ∧
      (strContains "Conv2d" "Conv2d" = false →
        strContains "Conv2d" "Linear" = true →
        (⟨some 5, some 0, none, none⟩ : Params).weight =
          p0.weight.map (fun v => v + 1) ∧
        (⟨some 5, some 0, none, none⟩ : Params).bias =
          p0.bias.map (fun _ => 0)) ∧
      (strContains "Conv2d" "Conv2d" = false →
        strContains "Conv2d" "Linear" = false →
        strContains "Conv2d" "ABCNN1Attention" = true →
        (⟨some 5, some 0, none, none⟩ : Params).W1 =
          p0.W1.map (fun v => v + 1) ∧
        (⟨some 5, some 0, none, none⟩ : Params).W2 =
          p0.W2.map (fun v => v + 1)) :=
  C7_weights_init (fun v => v + 1)
    (NNModule.node "Model" ⟨none, none, none, none⟩
      [NNModule.node "Conv2d" ⟨some 4, some 5, none, none⟩ []])
    [0] "Conv2d" ⟨some 5, some 0, none, none⟩ [] (by rfl)
